import Mathlib

/-!
Verification of the md2adf converter (src/adf.rs): a shallow embedding of
the ADF data model, the document builder, the Markdown-AST walk
`from_markdown`, and the serde-style JSON serializer, together with proofs
of the specified properties.
-/

namespace Md2Adf

/-- Rust struct `Mark`: `block_type` (serialized as "type") and `attrs`
(a HashMap; modelled as an association list — the only mark ever built
carries the single key "href", so iteration order is immaterial). -/
structure Mark where
  type : String
  attrs : List (String × String)
deriving Repr, DecidableEq

/-- Rust struct `Text`: `block_type` (serialized as "type", always set to
"text" by `Text::new`), the literal `text`, and the list of `marks`. -/
structure Text where
  type : String
  text : String
  marks : List Mark
deriving Repr, DecidableEq

/-- Rust `Text::new`: plain text node with no marks. -/
def Text.new (s : String) : Text :=
  ⟨"text", s, []⟩

/-- Rust `Text::add_mark`: pushes a mark onto the node's mark list. -/
def Text.add_mark (t : Text) (m : Mark) : Text :=
  ⟨t.type, t.text, t.marks ++ [m]⟩

/-- Rust enum `AdfNode`. The Rust `Paragraph` and `CodeBlock` structs each
hold a constant `block_type` field ("paragraph" / "codeBlock", fixed by
their `new()` constructors) plus a `content` vector; the constant tag is
folded into the serializer here firsthand. -/
inductive AdfNode where
  | paragraph (content : List AdfNode)
  | codeBlock (content : List AdfNode)
  | text (t : Text)
  | mark (m : Mark)
deriving Repr

/-- Rust `ParagraphBuilder::text`. The builder holds a mutable reference to
the paragraph under construction; it is modelled by the paragraph's content
list, threaded through each call. -/
def ParagraphBuilder.text (pb : List AdfNode) (s : String) : List AdfNode :=
  pb ++ [AdfNode.text (Text.new s)]

/-- Rust `ParagraphBuilder::link`: a Text node carrying one "link" mark
whose attrs map holds the single entry "href" → url. -/
def ParagraphBuilder.link (pb : List AdfNode) (s url : String) : List AdfNode :=
  pb ++ [AdfNode.text ((Text.new s).add_mark ⟨"link", [("href", url)]⟩)]

/-- Rust `CodeBlockBuilder::text`. -/
def CodeBlockBuilder.text (cb : List AdfNode) (s : String) : List AdfNode :=
  cb ++ [AdfNode.text (Text.new s)]

/-- Rust struct `Document`: serde serializes fields in declaration order —
`content`, `block_type` (renamed "type"), `version`. -/
structure Document where
  content : List AdfNode
  block_type : String
  version : Nat
deriving Repr

/-- Rust struct `DocumentBuilder`. -/
structure DocumentBuilder where
  content : List AdfNode
deriving Repr

/-- Rust `DocumentBuilder::new`. -/
def DocumentBuilder.new : DocumentBuilder :=
  ⟨[]⟩

/-- Rust `DocumentBuilder::paragraph`: pushes a fresh empty paragraph; the
returned sub-builder references exactly that last element. -/
def DocumentBuilder.paragraph (b : DocumentBuilder) : DocumentBuilder :=
  ⟨b.content ++ [AdfNode.paragraph []]⟩

/-- Rust `DocumentBuilder::code_block`. -/
def DocumentBuilder.code_block (b : DocumentBuilder) : DocumentBuilder :=
  ⟨b.content ++ [AdfNode.codeBlock []]⟩

/-- The generic Markdown AST (the `markdown` crate's mdast node
vocabulary, restricted to the fields the converter reads). Every node kind
other than text, link, paragraph and code is represented by `other` with
its kind name; `position` fields are never read and are omitted. -/
inductive MdNode where
  | text (value : String)
  | link (children : List MdNode) (url : String) (title : Option String)
  | paragraph (children : List MdNode)
  | code (value : String) (lang : Option String) (meta : Option String)
  | other (kind : String) (children : List MdNode)
deriving Repr

/-- The kind name of an mdast node — the enum-variant name that leads the
Rust debug rendering interpolated into the error message. -/
def MdNode.kind : MdNode → String
  | .text _ => "Text"
  | .link _ _ _ => "Link"
  | .paragraph _ => "Paragraph"
  | .code _ _ _ => "Code"
  | .other k _ => k

/-- Is the node accepted inside a paragraph? (text and link only). -/
def MdNode.supportedInline : MdNode → Bool
  | .text _ => true
  | .link _ _ _ => true
  | _ => false

/-- Is the node accepted at the top level? (paragraph and code only). -/
def MdNode.supportedTop : MdNode → Bool
  | .paragraph _ => true
  | .code _ _ _ => true
  | _ => false

/-- The two `anyhow::bail!` sites of `from_markdown`, kept structured:
each error carries the offending mdast node. -/
inductive ConvError where
  | unsupportedInline (n : MdNode)
  | unsupportedTop (n : MdNode)
deriving Repr

/-- The offending node an error carries. -/
def ConvError.offender : ConvError → MdNode
  | .unsupportedInline n => n
  | .unsupportedTop n => n

/-- The formatted error message of each bail site. Rust interpolates the
node with debug formatting, whose leading token is the variant name;
that rendering is abstracted to the node's kind. -/
def ConvError.message : ConvError → String
  | .unsupportedInline n =>
      "Only text nodes are supported for paragraph node, found " ++ n.kind
  | .unsupportedTop n =>
      "Only paragraph and code nodes are supported, found " ++ n.kind

/-- One iteration of the inline loop in `from_markdown`'s paragraph arm:
dispatch on the child node, appending to the paragraph under construction
or bailing out. The link arm mirrors
`l.children.first().map_or(&l.url, ...)`. -/
def convertInline (pb : List AdfNode) : MdNode → Except ConvError (List AdfNode)
  | .text v => .ok (ParagraphBuilder.text pb v)
  | .link cs url _ =>
      let t :=
        match cs.head? with
        | none => url
        | some (MdNode.text tv) => tv
        | some _ => url
      .ok (ParagraphBuilder.link pb t url)
  | n => .error (.unsupportedInline n)

/-- The inline loop over a paragraph's children, threading the paragraph
content. -/
def convertInlines : List MdNode → List AdfNode → Except ConvError (List AdfNode)
  | [], pb => .ok pb
  | n :: rest, pb =>
      match convertInline pb n with
      | .error e => .error e
      | .ok pb2 => convertInlines rest pb2

/-- The top-level loop of `from_markdown` over the root's children. The
Rust code opens the sub-builder (pushing an empty block) before filling it
in place; since only the last block is ever touched and an error discards
the whole builder, this is modelled by appending the completed block. -/
def convertBlocks : List MdNode → DocumentBuilder → Except ConvError DocumentBuilder
  | [], b => .ok b
  | MdNode.paragraph cs :: rest, b =>
      match convertInlines cs [] with
      | .error e => .error e
      | .ok pc => convertBlocks rest ⟨b.content ++ [AdfNode.paragraph pc]⟩
  | MdNode.code v _ _ :: rest, b =>
      convertBlocks rest ⟨b.content ++ [AdfNode.codeBlock (CodeBlockBuilder.text [] v)]⟩
  | n :: _, _ => .error (.unsupportedTop n)

/-- Rust `DocumentBuilder::build`: always `Ok`, wrapping the accumulated
content with the fixed "doc" / version-1 envelope. -/
def DocumentBuilder.build (b : DocumentBuilder) : Except ConvError Document :=
  .ok ⟨b.content, "doc", 1⟩

/-- JSON values, as far as this schema needs them (serde_json's value
space restricted to the shapes the derived serializers emit). -/
inductive Json where
  | str (s : String)
  | num (n : Nat)
  | arr (elems : List Json)
  | obj (fields : List (String × Json))
deriving Repr

/-- serde_json's escaping of one character inside a JSON string literal:
quote and backslash get a backslash escape, control characters get their
short escape or a lowercase \u00XX form, everything else passes through. -/
def escapeChar (c : Char) : String :=
  if c = '"' then "\\\""
  else if c = '\\' then "\\\\"
  else if c.toNat < 32 then
    match c with
    | '\x08' => "\\b"
    | '\t' => "\\t"
    | '\n' => "\\n"
    | '\x0c' => "\\f"
    | '\r' => "\\r"
    | _ =>
        let hex := fun (n : Nat) =>
          if n < 10 then Char.ofNat (48 + n) else Char.ofNat (87 + n)
        "\\u00" ++ String.singleton (hex (c.toNat / 16)) ++ String.singleton (hex (c.toNat % 16))
  else String.singleton c

/-- serde_json's escaping of a whole string body. -/
def escapeString (s : String) : String :=
  s.data.foldl (fun acc c => acc ++ escapeChar c) ""

mutual

/-- Compact JSON rendering, as serde_json::to_string produces it: no
whitespace, fields in the order the serializer emitted them. -/
def Json.render : Json → String
  | .str s => "\"" ++ escapeString s ++ "\""
  | .num n => toString n
  | .arr xs => "[" ++ Json.renderElems xs ++ "]"
  | .obj fs => "\x7b" ++ Json.renderFields fs ++ "\x7d"

/-- Comma-separated rendering of array elements. -/
def Json.renderElems : List Json → String
  | [] => ""
  | [x] => Json.render x
  | x :: y :: rest => Json.render x ++ "," ++ Json.renderElems (y :: rest)

/-- Comma-separated rendering of object fields. -/
def Json.renderFields : List (String × Json) → String
  | [] => ""
  | [f] => "\"" ++ escapeString f.1 ++ "\":" ++ Json.render f.2
  | f :: g :: rest =>
      "\"" ++ escapeString f.1 ++ "\":" ++ Json.render f.2 ++ "," ++
        Json.renderFields (g :: rest)

end

/-- Serde serialization of `Mark`: fields `block_type` (renamed "type")
then `attrs` (the map's entries as an object). -/
def Mark.toJson (m : Mark) : Json :=
  .obj [("type", .str m.type), ("attrs", .obj (m.attrs.map (fun a => (a.1, Json.str a.2))))]

/-- Serde serialization of `Text`: "type", "text", then "marks" — the
marks field is skipped when the vector is empty
(skip_serializing_if = Vec::is_empty). -/
def Text.toJson (t : Text) : Json :=
  .obj ([("type", Json.str t.type), ("text", Json.str t.text)] ++
    (if t.marks.isEmpty then [] else [("marks", Json.arr (t.marks.map Mark.toJson))]))

mutual

/-- Serde serialization of the untagged enum `AdfNode`: each variant
serializes as its payload; the paragraph / codeBlock structs serialize
their constant "type" tag then "content". -/
def AdfNode.toJson : AdfNode → Json
  | .paragraph c => .obj [("type", .str "paragraph"), ("content", .arr (AdfNode.toJsonList c))]
  | .codeBlock c => .obj [("type", .str "codeBlock"), ("content", .arr (AdfNode.toJsonList c))]
  | .text t => t.toJson
  | .mark m => m.toJson

/-- Serialization of a content vector. -/
def AdfNode.toJsonList : List AdfNode → List Json
  | [] => []
  | n :: ns => AdfNode.toJson n :: AdfNode.toJsonList ns

end

/-- Serde serialization of `Document`: fields in declaration order —
"content", "type", "version". -/
def Document.toJson (d : Document) : Json :=
  .obj [("content", .arr (AdfNode.toJsonList d.content)),
        ("type", .str d.block_type), ("version", .num d.version)]

/-- The conversion applied to an already-parsed root children list: run
the top-level walk, finalize the builder, serialize. -/
def from_markdown_ast (nodes : List MdNode) : Except ConvError String :=
  match convertBlocks nodes DocumentBuilder.new with
  | .error e => .error e
  | .ok b =>
      match b.build with
      | .error e => .error e
      | .ok d => .ok (Json.render d.toJson)

/-- Rust `from_markdown`, parameterized by the external parser
(markdown::to_mdast with default options, abstracted as a function from
the input string to either a parse failure or the root's children — the
root of a successful parse is always a Root node, whose children the code
unwraps). The code calls .unwrap() on the parser's result, so a parser
failure panics instead of returning: the panic is modelled as `none`,
while a normal return is `some` of the conversion's result. -/
def from_markdown (parse : String → Except String (List MdNode)) (md : String) :
    Option (Except ConvError String) :=
  match parse md with
  | .error _ => none
  | .ok nodes => some (from_markdown_ast nodes)

/-! ### Builder call sequences

The borrow discipline of the Rust sub-builders means any well-typed client
of `DocumentBuilder` is a sequence of these four calls, inline appends
always landing on the most recently opened block. -/

/-- One builder call: open a paragraph, open a code block, or append an
inline node (plain or link-marked text) through the open sub-builder. -/
inductive BuilderOp where
  | paragraph
  | code_block
  | text (s : String)
  | link (s : String) (url : String)
deriving Repr

/-- Push an inline node into a block node's content; non-block nodes are
untouched (a sub-builder only ever references a block). -/
def AdfNode.pushInline : AdfNode → AdfNode → AdfNode
  | .paragraph c, x => .paragraph (c ++ [x])
  | .codeBlock c, x => .codeBlock (c ++ [x])
  | n, _ => n

/-- Append an inline node to the last block of the accumulated content —
the block the live sub-builder references. -/
def appendInline : List AdfNode → AdfNode → List AdfNode
  | [], _ => []
  | [n], x => [n.pushInline x]
  | n :: m :: rest, x => n :: appendInline (m :: rest) x

/-- Apply one builder call to the builder state. -/
def DocumentBuilder.applyOp (b : DocumentBuilder) : BuilderOp → DocumentBuilder
  | .paragraph => b.paragraph
  | .code_block => b.code_block
  | .text s => ⟨appendInline b.content (AdfNode.text (Text.new s))⟩
  | .link s url =>
      ⟨appendInline b.content (AdfNode.text ((Text.new s).add_mark ⟨"link", [("href", url)]⟩))⟩

/-- Run a sequence of builder calls from a starting state. -/
def DocumentBuilder.applyOps (b : DocumentBuilder) (ops : List BuilderOp) : DocumentBuilder :=
  ops.foldl DocumentBuilder.applyOp b

/-! ### Structural well-formedness of built documents -/

/-- Is this node a Text node? -/
def AdfNode.isTextNode : AdfNode → Bool
  | .text _ => true
  | _ => false

/-- A block node is well-formed when it is a paragraph or code block all
of whose content elements are Text nodes. -/
def blockWF (n : AdfNode) : Prop :=
  (∃ c, n = AdfNode.paragraph c ∧ ∀ m ∈ c, m.isTextNode = true) ∨
  (∃ c, n = AdfNode.codeBlock c ∧ ∀ m ∈ c, m.isTextNode = true)

/-- A content list is well-formed when every element is a well-formed
block. -/
def contentWF (l : List AdfNode) : Prop :=
  ∀ n ∈ l, blockWF n

/-- A document is well-formed when its content is. -/
def docWF (d : Document) : Prop :=
  contentWF d.content

/-! ### First unsupported construct -/

/-- The first child of a paragraph that is neither text nor link, if
any — the node the inline loop bails on. -/
def firstInlineOffender : List MdNode → Option MdNode
  | [] => none
  | n :: rest => if n.supportedInline then firstInlineOffender rest else some n

/-- The error the top-level walk raises first, if any: scanning the
top-level nodes in order, a non-paragraph non-code node is an
unsupported-top offence, and a paragraph is scanned for an unsupported
inline child before moving on. -/
def firstOffender : List MdNode → Option ConvError
  | [] => none
  | MdNode.paragraph cs :: rest =>
      match firstInlineOffender cs with
      | some n => some (.unsupportedInline n)
      | none => firstOffender rest
  | MdNode.code _ _ _ :: rest => firstOffender rest
  | n :: _ => some (.unsupportedTop n)

/-! ## Lemmas about the inline and top-level walks -/

theorem convertInline_unsupported (pb : List AdfNode) (n : MdNode)
    (h : n.supportedInline = false) :
    convertInline pb n = .error (.unsupportedInline n) := by
  cases n with
  | text v => simp [MdNode.supportedInline] at h
  | link cs url t => simp [MdNode.supportedInline] at h
  | paragraph cs => rfl
  | code v l m => rfl
  | other k cs => rfl

theorem convertInline_supported (pb : List AdfNode) (n : MdNode)
    (h : n.supportedInline = true) :
    ∃ pb2, convertInline pb n = .ok pb2 := by
  cases n with
  | text v => exact ⟨_, rfl⟩
  | link cs url t => exact ⟨_, rfl⟩
  | paragraph cs => simp [MdNode.supportedInline] at h
  | code v l m => simp [MdNode.supportedInline] at h
  | other k cs => simp [MdNode.supportedInline] at h

theorem convertInlines_offender (cs : List MdNode) :
    ∀ (pb : List AdfNode) (n : MdNode), firstInlineOffender cs = some n →
      convertInlines cs pb = .error (.unsupportedInline n) := by
  induction cs with
  | nil => intro pb n h; simp [firstInlineOffender] at h
  | cons c rest ih =>
      intro pb n h
      by_cases hc : c.supportedInline = true
      · simp [firstInlineOffender, hc] at h
        obtain ⟨pb2, hpb2⟩ := convertInline_supported pb c hc
        simpa [convertInlines, hpb2] using ih pb2 n h
      · rw [Bool.not_eq_true] at hc
        simp [firstInlineOffender, hc] at h
        subst h
        simp [convertInlines, convertInline_unsupported pb c hc]

theorem convertInlines_ok (cs : List MdNode) :
    ∀ pb, firstInlineOffender cs = none → ∃ pb2, convertInlines cs pb = .ok pb2 := by
  induction cs with
  | nil => intro pb _; exact ⟨pb, rfl⟩
  | cons c rest ih =>
      intro pb h
      by_cases hc : c.supportedInline = true
      · simp [firstInlineOffender, hc] at h
        obtain ⟨pb2, hpb2⟩ := convertInline_supported pb c hc
        obtain ⟨pb3, hpb3⟩ := ih pb2 h
        exact ⟨pb3, by simp [convertInlines, hpb2, hpb3]⟩
      · rw [Bool.not_eq_true] at hc
        simp [firstInlineOffender, hc] at h

theorem convertBlocks_offender (nodes : List MdNode) :
    ∀ (b : DocumentBuilder) (e : ConvError), firstOffender nodes = some e →
      convertBlocks nodes b = .error e := by
  induction nodes with
  | nil => intro b e h; simp [firstOffender] at h
  | cons n rest ih =>
      intro b e h
      cases n with
      | paragraph cs =>
          cases hcs : firstInlineOffender cs with
          | some m =>
              simp [firstOffender, hcs] at h
              subst h
              simp [convertBlocks, convertInlines_offender cs [] m hcs]
          | none =>
              simp [firstOffender, hcs] at h
              obtain ⟨pc, hpc⟩ := convertInlines_ok cs [] hcs
              simp only [convertBlocks, hpc]
              exact ih _ e h
      | code v l m =>
          simp [firstOffender] at h
          simp only [convertBlocks]
          exact ih _ e h
      | text v =>
          simp [firstOffender] at h
          subst h
          rfl
      | link cs url t =>
          simp [firstOffender] at h
          subst h
          rfl
      | other k cs =>
          simp [firstOffender] at h
          subst h
          rfl

theorem firstInlineOffender_none (cs : List MdNode) :
    firstInlineOffender cs = none → ∀ c ∈ cs, c.supportedInline = true := by
  induction cs with
  | nil => intro _ c hc; cases hc
  | cons a rest ih =>
      intro h c hc
      by_cases ha : a.supportedInline = true
      · simp [firstInlineOffender, ha] at h
        cases hc with
        | head => exact ha
        | tail _ hm => exact ih h c hm
      · rw [Bool.not_eq_true] at ha
        simp [firstInlineOffender, ha] at h

theorem firstOffender_none (nodes : List MdNode) :
    firstOffender nodes = none →
      (∀ n ∈ nodes, n.supportedTop = true) ∧
      (∀ cs, MdNode.paragraph cs ∈ nodes → ∀ c ∈ cs, c.supportedInline = true) := by
  induction nodes with
  | nil =>
      intro _
      exact ⟨fun n hn => absurd hn (List.not_mem_nil n),
             fun cs hcs => absurd hcs (List.not_mem_nil _)⟩
  | cons a rest ih =>
      intro h
      cases a with
      | paragraph cs =>
          cases hcs : firstInlineOffender cs with
          | some m => simp [firstOffender, hcs] at h
          | none =>
              simp [firstOffender, hcs] at h
              obtain ⟨h1, h2⟩ := ih h
              constructor
              · intro n hn
                cases hn with
                | head => rfl
                | tail _ hm => exact h1 n hm
              · intro ds hds c hc
                cases hds with
                | head => exact firstInlineOffender_none cs hcs c hc
                | tail _ hm => exact h2 ds hm c hc
      | code v l m =>
          simp [firstOffender] at h
          obtain ⟨h1, h2⟩ := ih h
          constructor
          · intro n hn
            cases hn with
            | head => rfl
            | tail _ hm => exact h1 n hm
          · intro ds hds c hc
            cases hds with
            | tail _ hm => exact h2 ds hm c hc
      | text v => simp [firstOffender] at h
      | link cs url t => simp [firstOffender] at h
      | other k cs => simp [firstOffender] at h

theorem from_markdown_ast_error (nodes : List MdNode) (e : ConvError)
    (h : convertBlocks nodes DocumentBuilder.new = .error e) :
    from_markdown_ast nodes = .error e := by
  unfold from_markdown_ast
  rw [h]

/-- Claim C1: whenever the generic AST holds a top-level node that is
neither paragraph nor code, or a paragraph with an inline child that is
neither text nor link, the conversion returns the unsupported-node error
for the first such construct in walk order — the error message names the
offending node's kind — and yields no document at all. -/
theorem c1_unsupported_fail_fast (parse : String → Except String (List MdNode))
    (md : String) (nodes : List MdNode) (hp : parse md = .ok nodes)
    (h : (∃ n ∈ nodes, n.supportedTop = false) ∨
         (∃ cs, MdNode.paragraph cs ∈ nodes ∧ ∃ c ∈ cs, c.supportedInline = false)) :
    ∃ e : ConvError, from_markdown parse md = some (.error e) ∧
      firstOffender nodes = some e ∧
      (∃ pre, e.message = pre ++ e.offender.kind) := by
  cases hfo : firstOffender nodes with
  | none =>
      obtain ⟨h1, h2⟩ := firstOffender_none nodes hfo
      exfalso
      cases h with
      | inl h =>
          obtain ⟨n, hn, hns⟩ := h
          rw [h1 n hn] at hns
          cases hns
      | inr h =>
          obtain ⟨cs, hcs, c, hc, hcs2⟩ := h
          rw [h2 cs hcs c hc] at hcs2
          cases hcs2
  | some e =>
      refine ⟨e, ?_, rfl, ?_⟩
      · unfold from_markdown
        rw [hp]
        show some (from_markdown_ast nodes) = some (Except.error e)
        rw [from_markdown_ast_error nodes e (convertBlocks_offender nodes DocumentBuilder.new e hfo)]
      · cases e with
        | unsupportedInline n =>
            exact ⟨"Only text nodes are supported for paragraph node, found ", rfl⟩
        | unsupportedTop n =>
            exact ⟨"Only paragraph and code nodes are supported, found ", rfl⟩

/-- Witness for C1 at a concrete heading-like node. -/
theorem c1_unsupported_fail_fast_witness :
    ∃ e : ConvError,
      from_markdown (fun _ => .ok [MdNode.other "Heading" [MdNode.text "Title"]]) "# Title" =
        some (.error e) ∧
      firstOffender [MdNode.other "Heading" [MdNode.text "Title"]] = some e ∧
      (∃ pre, e.message = pre ++ e.offender.kind) :=
  c1_unsupported_fail_fast _ "# Title" _ rfl
    (Or.inl ⟨MdNode.other "Heading" [MdNode.text "Title"], List.mem_singleton.mpr rfl, rfl⟩)

/-- Claim C2: for a link child of a paragraph, when the first link child
is a text node its literal value becomes the emitted Text node's text,
otherwise (no children, or a non-text first child) the raw URL does; in
both cases the node carries exactly one link mark whose href attribute is
the raw URL. -/
theorem c2_link_display (pb : List AdfNode) (url : String) (title : Option String)
    (children : List MdNode) :
    (∀ v rest, children = MdNode.text v :: rest →
        convertInline pb (MdNode.link children url title) =
          .ok (pb ++ [AdfNode.text ⟨"text", v, [⟨"link", [("href", url)]⟩]⟩])) ∧
    ((∀ v, children.head? ≠ some (MdNode.text v)) →
        convertInline pb (MdNode.link children url title) =
          .ok (pb ++ [AdfNode.text ⟨"text", url, [⟨"link", [("href", url)]⟩]⟩])) := by
  constructor
  · intro v rest h
    subst h
    rfl
  · intro h
    cases children with
    | nil => rfl
    | cons c cs =>
        cases c with
        | text tv => exact absurd rfl (h tv)
        | link a b2 d => rfl
        | paragraph a => rfl
        | code a b2 d => rfl
        | other a b2 => rfl

/-- Witness for C2: a text-child link and an emphasis-child link. -/
theorem c2_link_display_witness :
    convertInline [] (MdNode.link [MdNode.text "alamakota"] "http://duckduck.go" none) =
      .ok [AdfNode.text ⟨"text", "alamakota", [⟨"link", [("href", "http://duckduck.go")]⟩]⟩] ∧
    convertInline [] (MdNode.link [MdNode.other "Emphasis" []] "http://duckduck.go" none) =
      .ok [AdfNode.text ⟨"text", "http://duckduck.go",
            [⟨"link", [("href", "http://duckduck.go")]⟩]⟩] :=
  ⟨(c2_link_display [] "http://duckduck.go" none [MdNode.text "alamakota"]).1 "alamakota" [] rfl,
   (c2_link_display [] "http://duckduck.go" none [MdNode.other "Emphasis" []]).2
     (fun v h => by simp at h)⟩

/-- Claim C6: a top-level code node appends exactly one codeBlock holding
exactly one unmarked Text node whose text is the code body verbatim; the
language tag and metadata do not influence the result at all. -/
theorem c6_code_block (v : String) (lang mt : Option String) (rest : List MdNode)
    (b : DocumentBuilder) :
    convertBlocks (MdNode.code v lang mt :: rest) b =
      convertBlocks rest ⟨b.content ++ [AdfNode.codeBlock [AdfNode.text ⟨"text", v, []⟩]]⟩ := rfl

/-- Claim C7: finalizing the builder always succeeds, for every sequence
of builder calls, and yields the accumulated content wrapped with the
fixed doc envelope and the constant version 1. -/
theorem c7_build_envelope (ops : List BuilderOp) :
    (DocumentBuilder.new.applyOps ops).build =
      .ok ⟨(DocumentBuilder.new.applyOps ops).content, "doc", 1⟩ := rfl

/-- Claim C10: only a link's first child influences the conversion — the
result is unchanged under any replacement of the remaining children — and
a non-text first child never raises an error: conversion succeeds with
the raw URL as display text. -/
theorem c10_link_first_child_only (pb : List AdfNode) (url : String) (title : Option String)
    (c : MdNode) (cs cs2 : List MdNode) :
    (convertInline pb (MdNode.link (c :: cs) url title) =
       convertInline pb (MdNode.link (c :: cs2) url title)) ∧
    ((∀ v, c ≠ MdNode.text v) →
       convertInline pb (MdNode.link (c :: cs) url title) =
         .ok (pb ++ [AdfNode.text ⟨"text", url, [⟨"link", [("href", url)]⟩]⟩])) := by
  constructor
  · cases c <;> rfl
  · intro h
    cases c with
    | text v => exact absurd rfl (h v)
    | link a b2 d => rfl
    | paragraph a => rfl
    | code a b2 d => rfl
    | other a b2 => rfl

/-- Witness for C10: an emphasis-first link with a discarded second
child. -/
theorem c10_link_first_child_only_witness :
    (convertInline []
        (MdNode.link [MdNode.other "Emphasis" [], MdNode.text "x"] "http://g" none) =
      convertInline [] (MdNode.link [MdNode.other "Emphasis" []] "http://g" none)) ∧
    convertInline []
        (MdNode.link [MdNode.other "Emphasis" [], MdNode.text "x"] "http://g" none) =
      .ok [AdfNode.text ⟨"text", "http://g", [⟨"link", [("href", "http://g")]⟩]⟩] :=
  ⟨(c10_link_first_child_only [] "http://g" none (MdNode.other "Emphasis" [])
      [MdNode.text "x"] []).1,
   (c10_link_first_child_only [] "http://g" none (MdNode.other "Emphasis" [])
      [MdNode.text "x"] []).2 (fun v h => by simp at h)⟩

/-! ## Structural invariant lemmas -/

theorem blockWF_pushInline (n x : AdfNode) (hn : blockWF n) (hx : x.isTextNode = true) :
    blockWF (n.pushInline x) := by
  cases hn with
  | inl h =>
      obtain ⟨c, rfl, hall⟩ := h
      left
      refine ⟨c ++ [x], rfl, ?_⟩
      intro m hm
      rcases List.mem_append.mp hm with hm | hm
      · exact hall m hm
      · rw [List.mem_singleton.mp hm]
        exact hx
  | inr h =>
      obtain ⟨c, rfl, hall⟩ := h
      right
      refine ⟨c ++ [x], rfl, ?_⟩
      intro m hm
      rcases List.mem_append.mp hm with hm | hm
      · exact hall m hm
      · rw [List.mem_singleton.mp hm]
        exact hx

theorem contentWF_appendInline (l : List AdfNode) :
    ∀ x, contentWF l → x.isTextNode = true → contentWF (appendInline l x) := by
  induction l with
  | nil => intro x h _; exact h
  | cons a rest ih =>
      intro x h hx
      cases rest with
      | nil =>
          intro n hn
          rw [List.mem_singleton.mp hn]
          exact blockWF_pushInline a x (h a (List.mem_singleton.mpr rfl)) hx
      | cons b rest2 =>
          intro n hn
          cases hn with
          | head => exact h a (List.mem_cons_self a _)
          | tail _ hm =>
              exact ih x (fun m hm2 => h m (List.mem_cons_of_mem a hm2)) hx n hm

theorem contentWF_applyOp (b : DocumentBuilder) (op : BuilderOp)
    (h : contentWF b.content) : contentWF (b.applyOp op).content := by
  cases op with
  | paragraph =>
      intro n hn
      rcases List.mem_append.mp hn with hm | hm
      · exact h n hm
      · rw [List.mem_singleton.mp hm]
        left
        exact ⟨[], rfl, fun m hm2 => absurd hm2 (List.not_mem_nil m)⟩
  | code_block =>
      intro n hn
      rcases List.mem_append.mp hn with hm | hm
      · exact h n hm
      · rw [List.mem_singleton.mp hm]
        right
        exact ⟨[], rfl, fun m hm2 => absurd hm2 (List.not_mem_nil m)⟩
  | text s => exact contentWF_appendInline b.content _ h rfl
  | link s url => exact contentWF_appendInline b.content _ h rfl

theorem contentWF_applyOps (ops : List BuilderOp) :
    ∀ b : DocumentBuilder, contentWF b.content → contentWF (b.applyOps ops).content := by
  induction ops with
  | nil => intro b h; exact h
  | cons op rest ih => intro b h; exact ih _ (contentWF_applyOp b op h)

theorem convertInline_text_only (pb : List AdfNode) (n : MdNode) (pb2 : List AdfNode)
    (h : convertInline pb n = .ok pb2) (hpb : ∀ x ∈ pb, x.isTextNode = true) :
    ∀ x ∈ pb2, x.isTextNode = true := by
  cases n with
  | text v =>
      simp only [convertInline, Except.ok.injEq] at h
      subst h
      intro x hx
      rcases List.mem_append.mp hx with hx | hx
      · exact hpb x hx
      · rw [List.mem_singleton.mp hx]
        rfl
  | link cs url t =>
      simp only [convertInline, Except.ok.injEq] at h
      subst h
      intro x hx
      rcases List.mem_append.mp hx with hx | hx
      · exact hpb x hx
      · rw [List.mem_singleton.mp hx]
        rfl
  | paragraph cs => cases h
  | code v l m => cases h
  | other k cs => cases h

theorem convertInlines_text_only (cs : List MdNode) :
    ∀ pb pb2, convertInlines cs pb = .ok pb2 → (∀ x ∈ pb, x.isTextNode = true) →
      ∀ x ∈ pb2, x.isTextNode = true := by
  induction cs with
  | nil =>
      intro pb pb2 h hpb
      injection h with h2
      rw [← h2]
      exact hpb
  | cons c rest ih =>
      intro pb pb2 h hpb
      cases hc : convertInline pb c with
      | error e =>
          simp only [convertInlines, hc] at h
          exact Except.noConfusion h
      | ok pbm =>
          simp only [convertInlines, hc] at h
          exact ih pbm pb2 h (convertInline_text_only pb c pbm hc hpb)

theorem convertBlocks_wf (nodes : List MdNode) :
    ∀ b b2, convertBlocks nodes b = .ok b2 → contentWF b.content → contentWF b2.content := by
  induction nodes with
  | nil =>
      intro b b2 h hb
      injection h with h2
      rw [← h2]
      exact hb
  | cons n rest ih =>
      intro b b2 h hb
      cases n with
      | paragraph cs =>
          cases hcs : convertInlines cs [] with
          | error e =>
              simp only [convertBlocks, hcs] at h
              exact Except.noConfusion h
          | ok pc =>
              simp only [convertBlocks, hcs] at h
              refine ih _ b2 h ?_
              intro m hm
              rcases List.mem_append.mp hm with hm | hm
              · exact hb m hm
              · rw [List.mem_singleton.mp hm]
                left
                exact ⟨pc, rfl, convertInlines_text_only cs [] pc hcs
                  (fun x hx => absurd hx (List.not_mem_nil x))⟩
      | code v l m =>
          simp only [convertBlocks] at h
          refine ih _ b2 h ?_
          intro m2 hm
          rcases List.mem_append.mp hm with hm | hm
          · exact hb m2 hm
          · rw [List.mem_singleton.mp hm]
            right
            refine ⟨[AdfNode.text (Text.new v)], rfl, ?_⟩
            intro x hx
            rw [List.mem_singleton.mp hx]
            rfl
      | text v => exact Except.noConfusion h
      | link cs url t => exact Except.noConfusion h
      | other k cs => exact Except.noConfusion h

/-- Claim C5: every document the builder finalizes — from any sequence of
builder calls, and in particular from any successful conversion — has
only paragraph and code-block nodes at the root, and all of their content
elements are Text nodes. -/
theorem c5_document_invariant :
    (∀ (ops : List BuilderOp) (d : Document),
        (DocumentBuilder.new.applyOps ops).build = .ok d → docWF d) ∧
    (∀ (nodes : List MdNode) (b : DocumentBuilder) (d : Document),
        convertBlocks nodes DocumentBuilder.new = .ok b → b.build = .ok d → docWF d) := by
  constructor
  · intro ops d h
    have h2 := contentWF_applyOps ops DocumentBuilder.new
      (fun n hn => absurd hn (List.not_mem_nil n))
    injection h with h3
    rw [← h3]
    exact h2
  · intro nodes b d h hb
    have h2 := convertBlocks_wf nodes DocumentBuilder.new b h
      (fun n hn => absurd hn (List.not_mem_nil n))
    injection hb with h3
    rw [← h3]
    exact h2

/-- Witness for C5 at a two-call builder run. -/
theorem c5_document_invariant_witness :
    docWF ⟨[AdfNode.paragraph [AdfNode.text ⟨"text", "hi", []⟩]], "doc", 1⟩ :=
  c5_document_invariant.1 [BuilderOp.paragraph, BuilderOp.text "hi"] _ rfl

/-- Claim C4: a Text node with no marks serializes with no marks field at
all, while a Text node with at least one mark serializes a non-empty
marks array. -/
theorem c4_marks_omission (t : Text) :
    (t.marks = [] →
       t.toJson = Json.obj [("type", Json.str t.type), ("text", Json.str t.text)]) ∧
    (t.marks ≠ [] →
       t.toJson = Json.obj [("type", Json.str t.type), ("text", Json.str t.text),
           ("marks", Json.arr (t.marks.map Mark.toJson))] ∧
         t.marks.map Mark.toJson ≠ []) := by
  constructor
  · intro h
    simp [Text.toJson, h]
  · intro h
    cases hm : t.marks with
    | nil => exact absurd hm h
    | cons m ms =>
        constructor
        · simp [Text.toJson, hm]
        · simp [hm]

/-- Witness for C4: an unmarked and a link-marked Text node. -/
theorem c4_marks_omission_witness :
    Text.toJson ⟨"text", "hello", []⟩ =
      Json.obj [("type", Json.str "text"), ("text", Json.str "hello")] ∧
    (Text.toJson ⟨"text", "ala", [⟨"link", [("href", "http://g")]⟩]⟩ =
      Json.obj [("type", Json.str "text"), ("text", Json.str "ala"),
          ("marks", Json.arr [Json.obj [("type", Json.str "link"),
            ("attrs", Json.obj [("href", Json.str "http://g")])]])] ∧
        [Json.obj [("type", Json.str "link"),
          ("attrs", Json.obj [("href", Json.str "http://g")])]] ≠ ([] : List Json)) :=
  ⟨(c4_marks_omission ⟨"text", "hello", []⟩).1 rfl,
   (c4_marks_omission ⟨"text", "ala", [⟨"link", [("href", "http://g")]⟩]⟩).2 (by simp)⟩

/-- Claim C8: the conversion is deterministic — two runs on the same
input string, against the same parser, produce the same result. -/
theorem c8_deterministic (parse : String → Except String (List MdNode))
    (md1 md2 : String) (h : md1 = md2) :
    from_markdown parse md1 = from_markdown parse md2 := by
  rw [h]

/-- Witness for C8 on a concrete input. -/
theorem c8_deterministic_witness :
    from_markdown (fun _ => .ok [MdNode.paragraph [MdNode.text "same"]]) "same" =
      from_markdown (fun _ => .ok [MdNode.paragraph [MdNode.text "same"]]) "same" :=
  c8_deterministic (fun _ => .ok [MdNode.paragraph [MdNode.text "same"]]) "same" "same" rfl

/-- Claim C9: an input whose generic AST has no top-level children (the
empty input among them) converts successfully to the empty document:
type doc, version 1, empty content array. -/
theorem c9_empty_document (parse : String → Except String (List MdNode)) (md : String)
    (h : parse md = .ok []) :
    from_markdown parse md =
      some (.ok "\x7b\"content\":[],\"type\":\"doc\",\"version\":1\x7d") := by
  unfold from_markdown
  rw [h]
  rfl

/-- Witness for C9 at the empty input. -/
theorem c9_empty_document_witness :
    from_markdown (fun _ => .ok []) "" =
      some (.ok "\x7b\"content\":[],\"type\":\"doc\",\"version\":1\x7d") :=
  c9_empty_document (fun _ => .ok []) "" rfl

/-- Counterexample to claim C3 as stated: at a concrete input on which
the parser fails, from_markdown does not return the failure as an error
value — the unwrap of the parser result panics, so no value at all is
returned (modelled as none). -/
theorem c3_counterexample :
    from_markdown (fun _ => .error "markdown parse failure") "input" = none := rfl

/-- Claim C3 amended: for every input string on which the external
Markdown parser fails, from_markdown panics (the code unwraps the
parser's result), returning neither a document nor an error value; the
parser's failure is not propagated to the caller. -/
theorem c3_parser_failure_panics (parse : String → Except String (List MdNode))
    (md : String) (e : String) (h : parse md = .error e) :
    from_markdown parse md = none := by
  unfold from_markdown
  rw [h]

/-- Witness for the amended C3. -/
theorem c3_parser_failure_panics_witness :
    from_markdown (fun _ => .error "unexpected mdx construct") "x" = none :=
  c3_parser_failure_panics (fun _ => .error "unexpected mdx construct") "x"
    "unexpected mdx construct" rfl

end Md2Adf
